import Mathlib

/-!
Verification of planetarium/submodule-updater against its specification.

This file shallowly embeds the decision logic of `src/sur/update.py`,
`src/sur/cli.py` and `src/sur/config.py`.  External effects (git
subprocesses, the GitHub API) are modelled by explicit outcome data that
is threaded through the embedded control flow, so that the embedded
functions compute exactly the control decisions the Python code makes.
-/

namespace Sur

/-! ## Configuration record (src/sur/config.py and its users)

`config.py` declares a frozen dataclass `Config`; `cli.py` constructs it
with keyword arguments and `update.py` reads attributes off it.  We embed
the three field inventories and the dataclass-call acceptance rule of Python. -/

/-- Fields declared on the `Config` dataclass (src/sur/config.py lines
11-15); none of them carries a default value. -/
def configDeclaredFields : List String :=
  ["github", "source_repository", "target_repositories"]

/-- Keyword arguments the CLI passes to `Config(...)`
(src/sur/cli.py lines 236-243). -/
def cliConfigKwargs : List String :=
  ["github", "source_repository", "ref", "targets", "committer", "dry_run"]

/-- Attributes that `run` / `update_target_repo` in src/sur/update.py read
off the configuration value (lines 30-48, 57, 64-65, 87-88, 115-119, 130-131). -/
def engineReadFields : List String :=
  ["targets", "source_repository", "ref", "committer", "dry_run", "github",
   "pr_title_format", "pr_description_format"]

/-- A Python dataclass `__init__` call with keyword arguments succeeds iff
every keyword names a declared field and every field without a default is
supplied.  (`Config` has no defaults, so all declared fields are required.) -/
def dataclassCallAccepted (declared kwargs : List String) : Bool :=
  kwargs.all (fun k => declared.contains k) &&
    declared.all (fun f => kwargs.contains f)

/-! ## The per-target update pipeline (src/sur/update.py lines 30-145)

`update_target_repo` clones the target, builds the submodule-update
commit, and publishes it either by a direct push or through a pull
request.  The outcomes of the effectful calls are supplied as a
`TargetEnv`; the embedded function reproduces the try/except structure of
the Python code. -/

instance exceptDecEq {ε α : Type} [DecidableEq ε] [DecidableEq α] :
    DecidableEq (Except ε α) := fun a b =>
  match a, b with
  | .error e, .error f =>
    if h : e = f then isTrue (by rw [h])
    else isFalse (fun hh => h (Except.error.inj hh))
  | .error _, .ok _ => isFalse (fun hh => Except.noConfusion hh)
  | .ok _, .error _ => isFalse (fun hh => Except.noConfusion hh)
  | .ok x, .ok y =>
    if h : x = y then isTrue (by rw [h])
    else isFalse (fun hh => h (Except.ok.inj hh))

/-- Publication outcome of one target. -/
inductive PubOutcome where
  | upToDate
  | pushed
  | prOpened
  | dryRunBranch
deriving DecidableEq

/-- Errors that propagate out of `update_target_repo` (uncaught Python
exceptions). -/
inductive TargetErr where
  | cloneFailed
  | updateFailed
  | reviewFailed
deriving DecidableEq

/-- Outcomes of the effectful calls made while handling one target.
`statusOk` is the outcome of `source_repo.create_status`; the code always
catches its `GitHubException` (update.py lines 86-102 and 129-144), so it
never influences the result. -/
structure TargetEnv where
  cloneOk : Bool
  updateResult : Except Unit (Option (Nat × Bool))
  pushOk : Bool
  statusOk : Bool
  reviewOk : Bool
deriving DecidableEq

/-- The pull-request path of `update_target_repo` (update.py lines
107-145): `open_pull_request` raises if it fails; in dry-run mode it
returns the fork branch, otherwise the opened pull request (any failure
of the subsequent `create_status` is caught and only logged). -/
def reviewPath (dry_run : Bool) (env : TargetEnv) : Except TargetErr PubOutcome :=
  if env.reviewOk = false then .error .reviewFailed
  else if dry_run then .ok .dryRunBranch
  else .ok .prOpened

/-- Embedding of `update_target_repo` (update.py lines 35-145).  `clone` raises
`GitError` on failure (lines 147-187); `update_submodules` may raise or
return `None` or a commit paired with the tree-changed flag; when the
tree did not change and this is not a dry run, a direct push is attempted
and a `GitError` from it is caught, falling back to the pull-request path
(lines 57-83); on push success the function returns after the (caught)
status report. -/
def update_target_repo (dry_run : Bool) (env : TargetEnv) :
    Except TargetErr PubOutcome :=
  if env.cloneOk = false then .error .cloneFailed
  else
    match env.updateResult with
    | .error _ => .error .updateFailed
    | .ok none => .ok .upToDate
    | .ok (some (_c, tree_changed)) =>
      if tree_changed = false ∧ dry_run = false then
        if env.pushOk then .ok .pushed
        else reviewPath dry_run env
      else reviewPath dry_run env

/-- Embedding of `run` (update.py lines 30-32): a plain loop over the configured
targets, with no exception handling around the per-target call.  The
result records the targets whose handler was actually entered, paired
with the error that aborted the loop, if any. -/
def runAll (dry_run : Bool) (envOf : Nat → TargetEnv) :
    List Nat → List Nat × Option TargetErr
  | [] => ([], none)
  | t :: rest =>
    match update_target_repo dry_run (envOf t) with
    | .error e => ([t], some e)
    | .ok _ =>
      let r := runAll dry_run envOf rest
      (t :: r.1, r.2)

/-- Environment in which target `0` fails to clone and every other target
would succeed trivially. -/
def envCloneFail : Nat → TargetEnv := fun t =>
  if t = 0 then ⟨false, .ok none, true, true, true⟩
  else ⟨true, .ok none, true, true, true⟩

/-- Environment in which every target succeeds with nothing to do. -/
def envAllOk : Nat → TargetEnv := fun _ => ⟨true, .ok none, true, true, true⟩

/-- Environment for exercising the push-failure fallback. -/
def envPushFail : TargetEnv := ⟨true, .ok (some (7, false)), false, true, true⟩

/-! ## find_latest_branch (src/sur/cli.py lines 82-91)

`find_latest_branch` filters the branches of the repository by a name prefix,
sorts them by the integer value of the maximal trailing digit run of
their name (descending, `reverse=True`), raises `NotFoundError` when no
branch matched, and returns the first element otherwise.  Branch objects
are represented by their names. -/

/-- Embedding of `str.startswith` on the character lists of the strings
(the first argument of `startsAux` is the candidate leading part). -/
def startsAux : List Char → List Char → Bool
  | [], _ => true
  | _ :: _, [] => false
  | c :: cs, d :: ds => c == d && startsAux cs ds

/-- Whether `s` starts with `pre`, as `s.startswith(pre)` does. -/
def strStartsWith (s pre : String) : Bool := startsAux pre.toList s.toList

/-- The maximal trailing run of decimal digits of a branch name, as
matched by `re.search(r"\d+$", b.name)`. -/
def trailingDigits (s : String) : List Char :=
  (s.toList.reverse.takeWhile Char.isDigit).reverse

/-- Decimal value of a digit string. -/
def digitsToNat (l : List Char) : Nat :=
  l.foldl (fun n c => n * 10 + (c.toNat - 48)) 0

/-- Key extraction `int(re.search(r"\d+$", b.name).group())`.  `none` models the
`AttributeError` raised when the branch name has no trailing digit
(`re.search` returns `None` and `.group()` fails). -/
def branchKey (s : String) : Option Nat :=
  if trailingDigits s = [] then none else some (digitsToNat (trailingDigits s))

/-- Sort key with `None` collapsed; only used where `branchKey` is
defined (the code would already have raised otherwise). -/
def keyD (s : String) : Nat := (branchKey s).getD 0

/-- The order produced by `branches.sort(key=..., reverse=True)`:
numerically larger suffix first. -/
def keyGE (a b : String) : Prop := keyD b ≤ keyD a

instance : DecidableRel keyGE := fun a b => Nat.decLe (keyD b) (keyD a)

instance : IsTotal String keyGE := ⟨fun a b => Nat.le_total (keyD b) (keyD a)⟩

instance : IsTrans String keyGE := ⟨fun _ _ _ h1 h2 => Nat.le_trans h2 h1⟩

/-- Failures of `find_latest_branch`: `NotFoundError` for an empty match
set, `AttributeError` when a matching name has no trailing digits
(CPython computes the key of every element before sorting). -/
inductive FindErr where
  | notFound
  | attributeError
deriving DecidableEq

/-- cli.py lines 82-91. -/
def find_latest_branch (branches : List String) (branch_startswith : String) :
    Except FindErr String :=
  let matching := branches.filter (fun b => strStartsWith b branch_startswith)
  if matching.any (fun b => (branchKey b).isNone) then .error .attributeError
  else if matching = [] then .error .notFound
  else .ok (matching.insertionSort keyGE).headI

/-! ## match_remote_url (src/sur/update.py lines 352-365)

URLs are represented as lists of characters. -/

abbrev Url := List Char

/-- The four URL attributes of a hosted repository, as delivered by the
repository API. -/
structure RepoUrls where
  clone_url : Url
  git_url : Url
  ssh_url : Url
  html_url : Url
deriving DecidableEq

def dotGit : Url := ".git".toList

/-- update.py lines 355-363: the four API-provided URLs plus, for each
one ending in `.git`, the same URL with that suffix removed
(`url[:-4]`).  The Python value is a set; a list with the same members
serves, since only membership is ever queried. -/
def possible_clone_urls (r : RepoUrls) : List Url :=
  let base := [r.clone_url, r.git_url, r.ssh_url, r.html_url]
  base ++ (base.filter (fun u => dotGit.isSuffixOf u)).map
    (fun u => u.take (u.length - 4))

/-- A repository object together with its `_possible_clone_urls`
attribute, the memo slot of update.py lines 353 and 364. -/
structure CachedRepo where
  urls : RepoUrls
  possibleCache : Option (List Url)
deriving DecidableEq

/-- update.py lines 352-365: on first use compute the candidate set and
store it on the repository object; then answer by membership. -/
def match_remote_url (repo : CachedRepo) (remote_url : Url) : Bool × CachedRepo :=
  match repo.possibleCache with
  | some s => (s.contains remote_url, repo)
  | none =>
    let s := possible_clone_urls repo.urls
    (s.contains remote_url, { urls := repo.urls, possibleCache := some s })

/-- The matching predicate as a pure function of the URL fields.  The
cache only ever holds the computed candidate set, so this is the value
`match_remote_url` returns in every reachable state (proved below). -/
def matchUrl (r : RepoUrls) (u : Url) : Bool := (possible_clone_urls r).contains u

def slash : Url := "/".toList

/-- Modelled from the spec: the URL fields the hosted-repository API
returns for owner `o` and name `r` on `host`.  These values come from
the external GitHub API, not from code in this repository; spec §3 and
§8 give the forms `https://host/o/r.git` (clone URL),
`git://host/o/r.git`, `ssh://git@host/o/r.git`, and the web URL
`https://host/o/r`. -/
def githubUrls (host o r : Url) : RepoUrls where
  clone_url := "https://".toList ++ host ++ slash ++ o ++ slash ++ r ++ dotGit
  git_url := "git://".toList ++ host ++ slash ++ o ++ slash ++ r ++ dotGit
  ssh_url := "ssh://git@".toList ++ host ++ slash ++ o ++ slash ++ r ++ dotGit
  html_url := "https://".toList ++ host ++ slash ++ o ++ slash ++ r

/-! ## update_submodules (src/sur/update.py lines 193-253)

The builder walks the submodule entries of the cloned working copy.
The state of each submodule working copy and the outcome of each
possible fetch are explicit data; object ids and tree ids are natural
numbers. -/

abbrev Oid := Nat

abbrev TreeId := Nat

/-- Outcome of `git fetch <remote> <oid.hex>` against one configured
remote of a submodule: whether the command exits zero, and whether it
delivers the requested object into the object store. -/
structure RemoteFetch where
  fetchOk : Bool
  hasObj : Bool
deriving DecidableEq

/-- State of one submodule working copy.  `localResolve` is the result
of resolving the target id before any fetch: `some t` when
`revparse_single` succeeds and the resolved object — after the tag
dereference of update.py lines 225-226 — has tree id `t`.
`fetchedTree` is the tree id the target object carries once a fetch
delivers it.  `initOk` is whether `git submodule update --init` exits
zero for this entry. -/
structure SubrepoState where
  headOid : Oid
  headTreeId : TreeId
  localResolve : Option TreeId
  remotes : List RemoteFetch
  fetchedTree : TreeId
  initOk : Bool
deriving DecidableEq

/-- The nested submodule tree below one submodule entry: path, recorded
remote URL, and its own nested submodules. -/
inductive SubTree where
  | node (path : String) (url : Url) (children : List SubTree)

/-- One entry of `cloned_repository.listall_submodules()`: its path,
its configured remote URL, the state of its working copy, and its own
nested submodules. -/
structure SubmoduleEntry where
  path : String
  url : Url
  sub : SubrepoState
  nested : List SubTree

/-- The cloned target working copy. -/
structure ClonedRepo where
  submodules : List SubmoduleEntry
  headTarget : Oid

/-- Errors raised inside the update walk: `GitError` from a failed
submodule initialization, `GitError` from a failed fetch (carrying the
index of the failing remote), and the `KeyError` of the retried
`revparse_single` when the object is still absent. -/
inductive UpdErr where
  | initFailed (path : String)
  | fetchFailed (remoteIdx : Nat)
  | refNotFound
deriving DecidableEq

/-- update.py lines 368-384 (`fetch_object`): fetch the object from
each configured remote, in declared order; a non-zero exit of any fetch
raises `GitError` at once, and there is no early exit after a
successful fetch.  `i` is the index of the remote currently tried. -/
def fetch_object : List RemoteFetch → Nat → Except UpdErr Unit
  | [], _ => .ok ()
  | rm :: rest, i =>
    if rm.fetchOk then fetch_object rest (i + 1) else .error (.fetchFailed i)

/-- Resolution of the target id in one submodule (update.py lines
214-224): use the local object store if it resolves; otherwise run
`fetch_object` over all remotes and retry the resolution once, the
retried `revparse_single` raising `KeyError` (here `refNotFound`) if
the store still lacks the object — which it gains exactly from a
successful fetch against a remote that has it. -/
def resolveTarget (s : SubrepoState) : Except UpdErr TreeId :=
  match s.localResolve with
  | some t => .ok t
  | none =>
    match fetch_object s.remotes 0 with
    | .error e => .error e
    | .ok _ =>
      if s.remotes.any (fun rm => rm.fetchOk && rm.hasObj) then .ok s.fetchedTree
      else .error .refNotFound

mutual

/-- update.py lines 417-444 (`init_submodule`): initialize the given
submodule, then recursively initialize every submodule of the opened
working copy, without consulting any remote URL (the rewrite of
`git://` URLs to HTTPS at lines 419-427 edits the manifest but does not
change which entries are visited).  The result is the list of
initialized paths in visit order. -/
def init_submodule : SubTree → List String
  | .node p _ cs => p :: initChildren cs

/-- The recursion of update.py lines 441-443 over
`subrepo.listall_submodules()`. -/
def initChildren : List SubTree → List String
  | [] => []
  | t :: ts => init_submodule t ++ initChildren ts

end

mutual

/-- Replace every remote URL in a nested submodule tree. -/
def SubTree.mapUrl (f : Url → Url) : SubTree → SubTree
  | .node p u cs => .node p (f u) (SubTree.mapUrlList f cs)

/-- Replace every remote URL in a list of nested submodule trees. -/
def SubTree.mapUrlList (f : Url → Url) : List SubTree → List SubTree
  | [] => []
  | t :: ts => SubTree.mapUrl f t :: SubTree.mapUrlList f ts

end

/-- The recorded remote URL of a nested submodule tree node. -/
def SubTree.rootUrl : SubTree → Url
  | .node _ u _ => u

/-- Accumulator of the update walk: the aggregated tree-changed flag,
the staged submodule paths of the parent index, the update count, and —
as the observation of the initialization side effect — the initialized
submodule paths. -/
structure UpdateAcc where
  tree_changed : Bool
  staged : List String
  count : Nat
  inited : List String
deriving DecidableEq

/-- The loop of update.py lines 204-233, one entry at a time: skip
entries whose URL does not match the source repository; initialize
matched entries (a failure raises, and initialization happens before
the up-to-date test); skip matched entries already at the target id;
resolve the target, fetching on demand; record whether the pre-update
HEAD tree differs from the target tree; hard-reset and stage the
path. -/
def updateWalk (src : RepoUrls) (oid : Oid) :
    List SubmoduleEntry → UpdateAcc → Except UpdErr UpdateAcc
  | [], acc => .ok acc
  | e :: rest, acc =>
    if matchUrl src e.url = false then updateWalk src oid rest acc
    else if e.sub.initOk = false then .error (.initFailed e.path)
    else
      let acc1 : UpdateAcc :=
        { acc with
          inited := acc.inited ++ init_submodule (.node e.path e.url e.nested) }
      if e.sub.headOid = oid then updateWalk src oid rest acc1
      else
        match resolveTarget e.sub with
        | .error err => .error err
        | .ok newTree =>
          updateWalk src oid rest
            { tree_changed := acc1.tree_changed || (e.sub.headTreeId != newTree),
              staged := acc1.staged ++ [e.path],
              count := acc1.count + 1,
              inited := acc1.inited }

/-- The data of the aggregate commit created at update.py lines
236-252: the staged paths, the number of updated submodules (used in
the message), and the parent head. -/
structure CommitInfo where
  stagedPaths : List String
  count : Nat
  parent : Oid
deriving DecidableEq

/-- update.py lines 193-253 (`update_submodules`): `none` when no entry
actually changed, otherwise the commit data paired with the aggregated
tree-changed flag.  The second component of the result is the observed
list of initialized submodule paths (an on-disk side effect in the
source). -/
def update_submodules (src : RepoUrls) (oid : Oid) (repo : ClonedRepo) :
    Except UpdErr (Option (CommitInfo × Bool) × List String) :=
  match updateWalk src oid repo.submodules ⟨false, [], 0, []⟩ with
  | .error e => .error e
  | .ok acc =>
    if acc.count = 0 then .ok (none, acc.inited)
    else
      .ok (some (⟨acc.staged, acc.count, repo.headTarget⟩, acc.tree_changed),
        acc.inited)

/-- Classification of what the walk does with one entry. -/
inductive EntryStep where
  | skipNoMatch
  | skipUpToDate
  | fail (e : UpdErr)
  | update (prevTree newTree : TreeId)
deriving DecidableEq

/-- The decision taken for one entry, following the same conditions in
the same order as `updateWalk`. -/
def entryStep (src : RepoUrls) (oid : Oid) (e : SubmoduleEntry) : EntryStep :=
  if matchUrl src e.url = false then .skipNoMatch
  else if e.sub.initOk = false then .fail (.initFailed e.path)
  else if e.sub.headOid = oid then .skipUpToDate
  else
    match resolveTarget e.sub with
    | .error err => .fail err
    | .ok newTree => .update e.sub.headTreeId newTree

/-- Whether the walk stages and counts this entry. -/
def entryUpdates (src : RepoUrls) (oid : Oid) (e : SubmoduleEntry) : Bool :=
  match entryStep src oid e with
  | .update _ _ => true
  | _ => false

/-- Whether this entry contributes a tree difference. -/
def entryChanges (src : RepoUrls) (oid : Oid) (e : SubmoduleEntry) : Bool :=
  match entryStep src oid e with
  | .update p n => p != n
  | _ => false

/-- Whether the walk raises at this entry. -/
def entryFails (src : RepoUrls) (oid : Oid) (e : SubmoduleEntry) : Bool :=
  match entryStep src oid e with
  | .fail _ => true
  | _ => false

/-- The initialized paths contributed by the matched entries of a list. -/
def initedOf (src : RepoUrls) (l : List SubmoduleEntry) : List String :=
  ((l.filter (fun e => matchUrl src e.url)).map
    (fun e => init_submodule (.node e.path e.url e.nested))).flatten

/-- Staged paths of an update result. -/
def stagedOf : Option (CommitInfo × Bool) → List String
  | none => []
  | some (c, _) => c.stagedPaths

/-- Update count of an update result. -/
def countOf : Option (CommitInfo × Bool) → Nat
  | none => 0
  | some (c, _) => c.count

/-- The effect of the hard reset of update.py line 231 on the submodule
states: each updated entry has its HEAD moved to the target id, whose
object carries the resolved tree. -/
def applyEntryUpdate (src : RepoUrls) (oid : Oid) (e : SubmoduleEntry) :
    SubmoduleEntry :=
  match entryStep src oid e with
  | .update _ n =>
    { e with
      sub :=
        { e.sub with headOid := oid, headTreeId := n, localResolve := some n } }
  | _ => e

/-- The working copy after a successful update run. -/
def applyUpdate (src : RepoUrls) (oid : Oid) (repo : ClonedRepo) : ClonedRepo :=
  { repo with submodules := repo.submodules.map (applyEntryUpdate src oid) }

/-- A concrete source repository for the concrete runs below. -/
def srcC : RepoUrls :=
  ⟨"https://h/o/r.git".toList, "git://h/o/r.git".toList,
    "ssh://git@h/o/r.git".toList, "https://h/o/r".toList⟩

/-- A URL referring to `srcC`. -/
def uSrc : Url := "https://h/o/r.git".toList

/-- A URL referring to some other repository. -/
def uOther : Url := "https://h/x/y.git".toList

/-- Entry whose target object is absent locally; the first remote fetch
succeeds and delivers the object, the second remote fetch fails. -/
def entryC7 : SubmoduleEntry :=
  ⟨"lib", uSrc, ⟨1, 10, none, [⟨true, true⟩, ⟨false, false⟩], 20, true⟩, []⟩

def repoC7 : ClonedRepo := ⟨[entryC7], 5⟩

/-- Entry `A` matching the source, with a nested submodule `A/B` whose
URL also refers to the source and a nested submodule `A/C` whose URL
does not. -/
def entryC8 : SubmoduleEntry :=
  ⟨"A", uSrc, ⟨1, 10, some 20, [], 0, true⟩,
    [SubTree.node "A/B" uSrc [], SubTree.node "A/C" uOther []]⟩

def repoC8 : ClonedRepo := ⟨[entryC8], 5⟩

/-- Entry whose submodule moves to a commit with an identical tree. -/
def repoSameTree : ClonedRepo :=
  ⟨[⟨"lib", uSrc, ⟨1, 10, some 10, [], 0, true⟩, []⟩], 5⟩

/-- Entry whose submodule moves to a commit with a different tree. -/
def repoDiffTree : ClonedRepo :=
  ⟨[⟨"lib", uSrc, ⟨1, 10, some 20, [], 0, true⟩, []⟩], 5⟩

/-- Working copy whose only matched entry is already at the target. -/
def repoUpToDate : ClonedRepo :=
  ⟨[⟨"lib", uSrc, ⟨2, 10, none, [], 0, true⟩, []⟩], 5⟩

/-! ## Target validation (src/sur/cli.py lines 94-151)

`validate_and_acquire_branches` splits each raw target specifier into a
repository part and a branch token, reads the optional (`?`) and
latest-by-suffix (`*`) markers off the branch token, and resolves the
branch through `acquire_valid_branches_for_repos`.  The GitHub lookups
are an oracle; repository and branch objects are abstract data. -/

/-- Python exceptions relevant to the lookups: `NotFoundError` versus
any other exception. -/
inductive PyExc where
  | notFound
  | other
deriving DecidableEq

/-- A repository object returned by `ctx.obj.repository(...)`; a name
stands in for the object identity. -/
structure RepoObj where
  ident : String
deriving DecidableEq

/-- A branch object returned by `repository.branch(...)`. -/
structure BranchObj where
  name : String
deriving DecidableEq

/-- The GitHub lookups used during validation: repository lookup by the
parsed key, branch lookup, the default branch, and the
latest-branch-by-suffix search. -/
structure GHLookups where
  lookupRepo : String → Except PyExc RepoObj
  branchOf : RepoObj → String → Except PyExc BranchObj
  defaultBranch : RepoObj → String
  latestBranch : RepoObj → String → Except PyExc BranchObj

/-- Errors that abort validation: `click.BadParameter`; the uncaught
`AttributeError` when the repository regular expression does not match
(cli.py line 134); and an uncaught exception from the second repository
lookup at cli.py line 149. -/
inductive ValErr where
  | badParameter
  | attributeError
  | uncaughtLookup (e : PyExc)
deriving DecidableEq

def qmark : Char := '?'

def star : Char := '*'

/-- Embedding of `str.endswith` for a one-character marker: whether the
last character of `s` is `c`. -/
def strEndsWithChar (s : String) (c : Char) : Bool :=
  match s.toList.reverse with
  | [] => false
  | d :: _ => d == c

/-- Embedding of `str.rstrip(c)`: drop every trailing occurrence of
`c`. -/
def rstripChar (s : String) (c : Char) : String :=
  ⟨(s.toList.reverse.dropWhile (fun d => d == c)).reverse⟩

/-- Helper of `splitColon`, accumulating the part before the colon in
reverse. -/
def splitColonAux (acc : List Char) : List Char → Option (String × String)
  | [] => none
  | c :: cs =>
    if c == ':' then some (⟨acc.reverse⟩, ⟨cs⟩)
    else splitColonAux (c :: acc) cs

/-- Embedding of `target.split(":", 1)`: split at the first colon;
`none` models the `ValueError` branch taken when there is no colon. -/
def splitColon (s : String) : Option (String × String) :=
  splitColonAux [] s.toList

/-- cli.py lines 94-120 (`acquire_valid_branches_for_repos`): look the
repository up; resolve the branch — by latest-suffix search when the
`*` marker was present, otherwise by name with the default branch
substituted for an empty token (`target or repository.default_branch`).
A `NotFoundError` anywhere in the try block is swallowed into `none`
for optional targets and is `BadParameter` otherwise; any other
exception is `BadParameter`. -/
def acquire_valid_branches_for_repos (gh : GHLookups) (target : String)
    (is_optional auto_latest_branch : Bool) (repoKey : String) :
    Except ValErr (Option BranchObj) :=
  let attempt : Except PyExc BranchObj :=
    match gh.lookupRepo repoKey with
    | .error e => .error e
    | .ok repository =>
      if auto_latest_branch then
        gh.latestBranch repository (target.replace "refs/heads/" "")
      else
        gh.branchOf repository
          (if target = "" then gh.defaultBranch repository else target)
  match attempt with
  | .ok b => .ok (some b)
  | .error .notFound =>
    if is_optional then .ok none else .error .badParameter
  | .error .other => .error .badParameter

/-- Python-dict insertion keyed by repository object: replace the value
under an existing key or append the new pair. -/
def dictInsert (m : List (RepoObj × BranchObj)) (k : RepoObj) (v : BranchObj) :
    List (RepoObj × BranchObj) :=
  if m.any (fun kv => kv.1 == k) then
    m.map (fun kv => if kv.1 == k then (k, v) else kv)
  else m ++ [(k, v)]

/-- The body of the loop of cli.py lines 129-149 for one specifier:
split at the colon (`BadParameter` when absent), parse the repository
part (`parseRepo` stands for the repository regular expression, `none`
raising the uncaught `AttributeError` of line 134), read the `?` and
`*` markers off the unstripped token, strip them (`*` first, then `?`),
acquire the branch, and on success insert it into the mapping under the
freshly looked-up repository object (an error of that second lookup
propagates uncaught). -/
def processTarget (gh : GHLookups) (parseRepo : String → Option String)
    (target : String) (m : List (RepoObj × BranchObj)) :
    Except ValErr (List (RepoObj × BranchObj)) :=
  match splitColon target with
  | none => .error .badParameter
  | some (repoStr, branch0) =>
    match parseRepo repoStr with
    | none => .error .attributeError
    | some repoKey =>
      let is_optional := (branch0 != "") && strEndsWithChar branch0 qmark
      let auto_latest := (branch0 != "") && strEndsWithChar branch0 star
      let branch1 := if auto_latest then rstripChar branch0 star else branch0
      let branch2 := if is_optional then rstripChar branch1 qmark else branch1
      match acquire_valid_branches_for_repos gh branch2 is_optional
          auto_latest repoKey with
      | .error e => .error e
      | .ok none => .ok m
      | .ok (some b) =>
        match gh.lookupRepo repoKey with
        | .error e => .error (.uncaughtLookup e)
        | .ok robj => .ok (dictInsert m robj b)

/-- cli.py lines 123-151 (`validate_and_acquire_branches`), processing
the raw specifiers in order and accumulating the resolved mapping. -/
def validate_go (gh : GHLookups) (parseRepo : String → Option String) :
    List String → List (RepoObj × BranchObj) →
    Except ValErr (List (RepoObj × BranchObj))
  | [], m => .ok m
  | target :: rest, m =>
    match processTarget gh parseRepo target m with
    | .error e => .error e
    | .ok m2 => validate_go gh parseRepo rest m2

/-- The validation entry point, starting from the empty mapping. -/
def validate_and_acquire_branches (gh : GHLookups)
    (parseRepo : String → Option String) (targets : List String) :
    Except ValErr (List (RepoObj × BranchObj)) :=
  validate_go gh parseRepo targets []

/-- Concrete lookups for the validation witness: repository `org/repo`
exists, every branch lookup fails with `NotFoundError`. -/
def ghW : GHLookups :=
  ⟨fun k => if k == "org/repo" then .ok ⟨"org/repo"⟩ else .error .other,
    fun _ _ => .error .notFound,
    fun _ => "main",
    fun _ _ => .error .other⟩

theorem runAll_all_ok (dry_run : Bool) (envOf : Nat → TargetEnv)
    (targets : List Nat)
    (h : ∀ t ∈ targets, (envOf t).cloneOk = true ∧
      (∃ r, (envOf t).updateResult = .ok r) ∧ (envOf t).reviewOk = true) :
    (runAll dry_run envOf targets).1 = targets := by
  induction targets with
  | nil => rfl
  | cons t rest ih =>
    have ht := h t (List.mem_cons_self t rest)
    obtain ⟨hc, ⟨r, hr⟩, hrev⟩ := ht
    have hok : ∃ o, update_target_repo dry_run (envOf t) = .ok o := by
      unfold update_target_repo reviewPath
      rw [hc, hr]
      match r with
      | none => exact ⟨.upToDate, rfl⟩
      | some (c, tc) =>
        rw [hrev]
        by_cases h1 : tc = false ∧ dry_run = false
        · simp only [if_pos h1]
          cases hp : (envOf t).pushOk
          · simp only [Bool.false_eq_true, if_false]
            by_cases hd : dry_run = true <;> simp [hd]
          · exact ⟨.pushed, by simp⟩
        · simp only [if_neg h1]
          by_cases hd : dry_run = true <;> simp [hd]
    obtain ⟨o, ho⟩ := hok
    have ih' := ih (fun s hs => h s (List.mem_cons_of_mem t hs))
    simp only [runAll, ho]
    exact congrArg (t :: ·) ih'

theorem runAll_aborts (dry_run : Bool) (envOf : Nat → TargetEnv)
    (pre : List Nat) (t : Nat) (post : List Nat) (e : TargetErr)
    (hpre : ∀ s ∈ pre, ∃ o, update_target_repo dry_run (envOf s) = .ok o)
    (ht : update_target_repo dry_run (envOf t) = .error e) :
    runAll dry_run envOf (pre ++ t :: post) = (pre ++ [t], some e) := by
  induction pre with
  | nil => simp [runAll, ht]
  | cons s rest ih =>
    obtain ⟨o, ho⟩ := hpre s (List.mem_cons_self s rest)
    have ih' := ih (fun s' hs' => hpre s' (List.mem_cons_of_mem s hs'))
    simp [runAll, ho, ih']

/-- C1 counterexample: with two targets where the first fails to clone,
`run` enters the handler only for the first target; the second target,
although in the configured list, is never attempted.  This refutes the
claim that the top-level run attempts every target regardless of errors
raised while handling earlier ones. -/
theorem run_does_not_attempt_all_targets :
    (envCloneFail 0).cloneOk = false ∧
    (runAll false envCloneFail [0, 1]).1 = [0] ∧
    1 ∈ [0, 1] ∧ 1 ∉ (runAll false envCloneFail [0, 1]).1 := by
  decide

/-- C1 (amended): only push failures (with the subsequent review request
succeeding) and status-report failures are isolated per target: if the clone, submodule update, and review request of every
target succeed, the run
attempts all targets; but whenever the handler of some target raises (for
example on a clone failure), the loop stops there and the remaining
targets are not attempted. -/
theorem run_isolation_only_for_push_and_status :
    (∀ (dry_run : Bool) (envOf : Nat → TargetEnv) (targets : List Nat),
      (∀ t ∈ targets, (envOf t).cloneOk = true ∧
        (∃ r, (envOf t).updateResult = .ok r) ∧ (envOf t).reviewOk = true) →
      (runAll dry_run envOf targets).1 = targets) ∧
    (∀ (dry_run : Bool) (envOf : Nat → TargetEnv) (pre : List Nat)
      (t : Nat) (post : List Nat) (e : TargetErr),
      (∀ s ∈ pre, ∃ o, update_target_repo dry_run (envOf s) = .ok o) →
      update_target_repo dry_run (envOf t) = .error e →
      runAll dry_run envOf (pre ++ t :: post) = (pre ++ [t], some e)) :=
  ⟨runAll_all_ok, runAll_aborts⟩

/-- Witness for the amended C1 theorem at concrete inputs. -/
theorem run_isolation_only_for_push_and_status_witness :
    (runAll false envAllOk [0, 1]).1 = [0, 1] ∧
    runAll false envCloneFail ([] ++ 0 :: [1]) = ([] ++ [0], some .cloneFailed) :=
  ⟨run_isolation_only_for_push_and_status.1 false envAllOk [0, 1]
      (by intro t _; refine ⟨rfl, ⟨none, ?_⟩, rfl⟩; rfl),
    run_isolation_only_for_push_and_status.2 false envCloneFail [] 0 [1]
      .cloneFailed (by intro s hs; cases hs) (by decide)⟩

/-- C2: when the built commit carries no material change and the direct
push raises a git error, `update_target_repo` does not propagate the push
error but opens a pull request; in dry-run mode the outcome is the fork
branch instead. -/
theorem push_failure_falls_back_to_review (dry_run : Bool) (env : TargetEnv)
    (c : Nat)
    (hclone : env.cloneOk = true)
    (hupd : env.updateResult = .ok (some (c, false)))
    (hreview : env.reviewOk = true) :
    (env.pushOk = false → dry_run = false →
      update_target_repo dry_run env = .ok .prOpened) ∧
    (dry_run = true → update_target_repo dry_run env = .ok .dryRunBranch) := by
  constructor
  · intro hpush hdry
    unfold update_target_repo reviewPath
    rw [hclone, hupd, hdry, hpush, hreview]
    simp
  · intro hdry
    unfold update_target_repo reviewPath
    rw [hclone, hupd, hdry, hreview]
    simp

/-- Witness for C2 at a concrete environment. -/
theorem push_failure_falls_back_to_review_witness :
    update_target_repo false envPushFail = .ok .prOpened :=
  (push_failure_falls_back_to_review false envPushFail 7 rfl rfl rfl).1 rfl rfl

/-- C10: the `Config` dataclass rejects the keyword arguments the CLI
supplies (`ref` is not a declared field, `target_repositories` is missing)
and lacks fields the update engine reads, so constructing the run
configuration cannot succeed. -/
theorem config_construction_fails :
    dataclassCallAccepted configDeclaredFields cliConfigKwargs = false ∧
    engineReadFields.all (fun f => configDeclaredFields.contains f) = false ∧
    cliConfigKwargs.contains "ref" = true ∧
    configDeclaredFields.contains "ref" = false ∧
    configDeclaredFields.contains "target_repositories" = true ∧
    cliConfigKwargs.contains "target_repositories" = false := by
  decide

theorem dropWhile_head_not (p : Char → Bool) (l : List Char) (c : Char)
    (cs : List Char) (h : l.dropWhile p = c :: cs) : p c = false := by
  induction l with
  | nil => simp [List.dropWhile] at h
  | cons x xs ih =>
    rw [List.dropWhile_cons] at h
    cases hx : p x with
    | true => rw [hx] at h; simp only [if_pos] at h; exact ih h
    | false =>
      rw [hx] at h
      simp only [Bool.false_eq_true, if_false, List.cons.injEq] at h
      rw [← h.1]; exact hx

theorem trailingDigits_decomp (s : String) :
    s.toList = (s.toList.reverse.dropWhile Char.isDigit).reverse ++ trailingDigits s ∧
    (∀ c ∈ trailingDigits s, c.isDigit = true) ∧
    (∀ c, (s.toList.reverse.dropWhile Char.isDigit).reverse.getLast? = some c →
      c.isDigit = false) := by
  refine ⟨?_, ?_, ?_⟩
  · conv_lhs => rw [← List.reverse_reverse s.toList,
      ← List.takeWhile_append_dropWhile Char.isDigit s.toList.reverse]
    rw [List.reverse_append]
    rfl
  · intro c hc
    unfold trailingDigits at hc
    rw [List.mem_reverse] at hc
    exact List.mem_takeWhile_imp hc
  · intro c hc
    rw [List.getLast?_reverse] at hc
    rcases hd : s.toList.reverse.dropWhile Char.isDigit with _ | ⟨x, xs⟩
    · rw [hd] at hc; simp at hc
    · rw [hd] at hc
      simp only [List.head?_cons, Option.some.injEq] at hc
      rw [← hc]
      exact dropWhile_head_not Char.isDigit _ x xs hd

theorem keyD_eq_digits (b : String) (h : (branchKey b).isSome = true) :
    keyD b = digitsToNat (trailingDigits b) := by
  unfold keyD branchKey at *
  by_cases ht : trailingDigits b = []
  · rw [if_pos ht] at h; simp at h
  · rw [if_neg ht]; rfl

/-- C5: latest-by-suffix branch selection.  Provided every branch name
matching the prefix carries a trailing run of decimal digits (otherwise
the code raises before comparing), the function fails with `NotFound`
when no branch matches, and otherwise returns a matching branch whose
numeric suffix is greatest among all matching branches (numeric, not
lexicographic, comparison); `trailingDigits` is exactly the maximal
trailing digit run of the name. -/
theorem find_latest_branch_correct (branches : List String) (p : String)
    (hdig : ∀ b ∈ branches.filter (fun b => strStartsWith b p),
      (branchKey b).isSome = true) :
    (branches.filter (fun b => strStartsWith b p) = [] →
      find_latest_branch branches p = .error .notFound) ∧
    (branches.filter (fun b => strStartsWith b p) ≠ [] →
      ∃ m, find_latest_branch branches p = .ok m ∧ m ∈ branches ∧
        strStartsWith m p = true ∧
        ∀ b ∈ branches, strStartsWith b p = true →
          digitsToNat (trailingDigits b) ≤ digitsToNat (trailingDigits m)) ∧
    (∀ s : String,
      s.toList =
        (s.toList.reverse.dropWhile Char.isDigit).reverse ++ trailingDigits s ∧
      (∀ c ∈ trailingDigits s, c.isDigit = true) ∧
      (∀ c, (s.toList.reverse.dropWhile Char.isDigit).reverse.getLast? = some c →
        c.isDigit = false)) := by
  have hany : (branches.filter (fun b => strStartsWith b p)).any
      (fun b => (branchKey b).isNone) = false := by
    rw [List.any_eq_false]
    intro b hb
    have := hdig b hb
    simp [Option.isNone_iff_eq_none]
    exact Option.isSome_iff_ne_none.mp this
  refine ⟨?_, ?_, fun s => trailingDigits_decomp s⟩
  · intro hM
    unfold find_latest_branch
    rw [hM]
    rfl
  · intro hM
    unfold find_latest_branch
    simp only [hany, Bool.false_eq_true, if_false, if_neg hM]
    set M := branches.filter (fun b => strStartsWith b p) with hMdef
    have hperm : List.Perm (M.insertionSort keyGE) M := List.perm_insertionSort keyGE M
    have hsne : M.insertionSort keyGE ≠ [] := by
      intro hnil
      apply hM
      have := hperm.length_eq
      rw [hnil] at this
      exact List.length_eq_zero.mp this.symm
    obtain ⟨m, tail, hcons⟩ := List.exists_cons_of_ne_nil hsne
    have hsorted : List.Sorted keyGE (m :: tail) := by
      rw [← hcons]; exact List.sorted_insertionSort keyGE M
    have hmem : m ∈ M := hperm.mem_iff.mp (by rw [hcons]; exact List.mem_cons_self m tail)
    have hmM := List.mem_filter.mp hmem
    refine ⟨m, by rw [hcons]; rfl, hmM.1, by simpa using hmM.2, ?_⟩
    intro b hb hbp
    have hbM : b ∈ M := List.mem_filter.mpr ⟨hb, by simpa using hbp⟩
    have hble : keyD b ≤ keyD m := by
      have hbs : b ∈ m :: tail := by rw [← hcons]; exact hperm.mem_iff.mpr hbM
      rcases List.mem_cons.mp hbs with h1 | h2
      · rw [h1]
      · exact (List.sorted_cons.mp hsorted).1 b h2
    rw [← keyD_eq_digits b (hdig b hbM), ← keyD_eq_digits m (hdig m hmem)]
    exact hble

/-- Witness for C5 on the spec example: branches release-3, release-10,
release-2 with prefix release- select release-10. -/
theorem find_latest_branch_correct_witness :
    find_latest_branch ["release-3", "release-10", "release-2"] "release-" =
      .ok "release-10" ∧
    (∃ m, find_latest_branch ["release-3", "release-10", "release-2"] "release-" =
        .ok m ∧ m ∈ ["release-3", "release-10", "release-2"] ∧
        strStartsWith m "release-" = true ∧
        ∀ b ∈ ["release-3", "release-10", "release-2"], strStartsWith b "release-" = true →
          digitsToNat (trailingDigits b) ≤ digitsToNat (trailingDigits m)) :=
  ⟨by decide,
    (find_latest_branch_correct ["release-3", "release-10", "release-2"]
      "release-" (by decide)).2.1 (by decide)⟩

theorem stripDotGit_append (x : Url) :
    (x ++ dotGit).take ((x ++ dotGit).length - 4) = x := by
  have h4 : dotGit.length = 4 := rfl
  rw [List.length_append, h4, Nat.add_sub_cancel]
  exact List.take_left x dotGit

theorem dotGit_isSuffix (x : Url) : dotGit.isSuffixOf (x ++ dotGit) = true := by
  rw [List.isSuffixOf_iff_suffix]
  exact List.suffix_append x dotGit

theorem mem_possible_of_strip (r : RepoUrls) (x : Url)
    (hb : x ++ dotGit ∈ [r.clone_url, r.git_url, r.ssh_url, r.html_url]) :
    x ∈ possible_clone_urls r := by
  unfold possible_clone_urls
  refine List.mem_append_right _ (List.mem_map.mpr ⟨x ++ dotGit, ?_, stripDotGit_append x⟩)
  exact List.mem_filter.mpr ⟨hb, dotGit_isSuffix x⟩

/-- C6: URL equivalence and memoization.  On a fresh repository object,
the matcher answers exactly membership in the candidate set; the first
call stores the computed candidate set on the object, and a call with
the populated cache answers from it without changing the object.  With
the API URL forms for owner `o`, name `r`, the HTTPS URL with and
without the `.git` suffix, the `git://` URL and the `ssh://` URL (and
the suffix-stripped `git://` variant) all match. -/
theorem match_remote_url_correct (urls : RepoUrls) (u v : Url) (host o r : Url) :
    ((match_remote_url ⟨urls, none⟩ u).1 = true ↔ u ∈ possible_clone_urls urls) ∧
    (match_remote_url ⟨urls, none⟩ u).2 =
      ⟨urls, some (possible_clone_urls urls)⟩ ∧
    match_remote_url ⟨urls, some (possible_clone_urls urls)⟩ v =
      ((possible_clone_urls urls).contains v,
        ⟨urls, some (possible_clone_urls urls)⟩) ∧
    matchUrl (githubUrls host o r)
      ("https://".toList ++ host ++ slash ++ o ++ slash ++ r ++ dotGit) = true ∧
    matchUrl (githubUrls host o r)
      ("https://".toList ++ host ++ slash ++ o ++ slash ++ r) = true ∧
    matchUrl (githubUrls host o r)
      ("git://".toList ++ host ++ slash ++ o ++ slash ++ r ++ dotGit) = true ∧
    matchUrl (githubUrls host o r)
      ("ssh://git@".toList ++ host ++ slash ++ o ++ slash ++ r ++ dotGit) = true ∧
    matchUrl (githubUrls host o r)
      ("git://".toList ++ host ++ slash ++ o ++ slash ++ r) = true := by
  refine ⟨List.elem_iff, rfl, rfl, ?_, ?_, ?_, ?_, ?_⟩
  · exact List.elem_iff.mpr (by unfold possible_clone_urls githubUrls; simp)
  · exact List.elem_iff.mpr (by unfold possible_clone_urls githubUrls; simp)
  · exact List.elem_iff.mpr (by unfold possible_clone_urls githubUrls; simp)
  · exact List.elem_iff.mpr (by unfold possible_clone_urls githubUrls; simp)
  · exact List.elem_iff.mpr
      (mem_possible_of_strip (githubUrls host o r)
        ("git://".toList ++ host ++ slash ++ o ++ slash ++ r) (by simp [githubUrls]))

/-- Witness for C6 at concrete owner and name. -/
theorem match_remote_url_correct_witness :
    matchUrl (githubUrls "github.com".toList "o".toList "r".toList)
      ("https://".toList ++ "github.com".toList ++ slash ++ "o".toList ++
        slash ++ "r".toList ++ dotGit) = true :=
  (match_remote_url_correct
    (githubUrls "github.com".toList "o".toList "r".toList) [] []
    "github.com".toList "o".toList "r".toList).2.2.2.1

theorem boolTrue (b : Bool) (h : ¬ b = false) : b = true := by
  cases b with
  | false => exact absurd rfl h
  | true => rfl

theorem matchUrl_true_of_not_false (src : RepoUrls) (u : Url)
    (h : ¬ matchUrl src u = false) : matchUrl src u = true :=
  boolTrue (matchUrl src u) h

theorem entryStep_noMatch (src : RepoUrls) (oid : Oid) (e : SubmoduleEntry)
    (hm : matchUrl src e.url = false) : entryStep src oid e = .skipNoMatch := by
  unfold entryStep
  rw [if_pos hm]

theorem entryStep_noMatch_inv (src : RepoUrls) (oid : Oid)
    (e : SubmoduleEntry) (h : entryStep src oid e = .skipNoMatch) :
    matchUrl src e.url = false := by
  by_cases hm : matchUrl src e.url = false
  · exact hm
  · exfalso
    unfold entryStep at h
    rw [if_neg hm] at h
    by_cases hi : e.sub.initOk = false
    · rw [if_pos hi] at h
      cases h
    · rw [if_neg hi] at h
      by_cases hh : e.sub.headOid = oid
      · rw [if_pos hh] at h
        cases h
      · rw [if_neg hh] at h
        rcases hres : resolveTarget e.sub with err | nt <;> rw [hres] at h <;>
          cases h

theorem entryStep_facts_upToDate (src : RepoUrls) (oid : Oid)
    (e : SubmoduleEntry) (h : entryStep src oid e = .skipUpToDate) :
    matchUrl src e.url = true ∧ e.sub.initOk = true ∧ e.sub.headOid = oid := by
  by_cases hm : matchUrl src e.url = false
  · rw [entryStep_noMatch src oid e hm] at h
    cases h
  · by_cases hi : e.sub.initOk = false
    · unfold entryStep at h
      rw [if_neg hm, if_pos hi] at h
      cases h
    · by_cases hh : e.sub.headOid = oid
      · exact ⟨boolTrue _ hm, boolTrue _ hi, hh⟩
      · unfold entryStep at h
        rw [if_neg hm, if_neg hi, if_neg hh] at h
        rcases hres : resolveTarget e.sub with err | nt <;> rw [hres] at h <;>
          cases h

theorem entryStep_facts_update (src : RepoUrls) (oid : Oid)
    (e : SubmoduleEntry) (p n : TreeId)
    (h : entryStep src oid e = .update p n) :
    matchUrl src e.url = true ∧ e.sub.initOk = true ∧ ¬ e.sub.headOid = oid ∧
      p = e.sub.headTreeId ∧ resolveTarget e.sub = .ok n := by
  by_cases hm : matchUrl src e.url = false
  · rw [entryStep_noMatch src oid e hm] at h
    cases h
  · by_cases hi : e.sub.initOk = false
    · unfold entryStep at h
      rw [if_neg hm, if_pos hi] at h
      cases h
    · by_cases hh : e.sub.headOid = oid
      · unfold entryStep at h
        rw [if_neg hm, if_neg hi, if_pos hh] at h
        cases h
      · unfold entryStep at h
        rw [if_neg hm, if_neg hi, if_neg hh] at h
        rcases hres : resolveTarget e.sub with err | nt <;> rw [hres] at h
        · cases h
        · obtain ⟨hp, hn⟩ := EntryStep.update.inj h
          exact ⟨boolTrue _ hm, boolTrue _ hi, hh, hp.symm,
            congrArg Except.ok hn⟩

theorem entryChanges_iff (src : RepoUrls) (oid : Oid) (e : SubmoduleEntry) :
    entryChanges src oid e = true ↔
      ∃ n, entryStep src oid e = .update e.sub.headTreeId n ∧
        e.sub.headTreeId ≠ n := by
  constructor
  · intro hch
    unfold entryChanges at hch
    rcases hst : entryStep src oid e with _ | _ | err | ⟨p, n⟩ <;> rw [hst] at hch
    · simp at hch
    · simp at hch
    · simp at hch
    · have hp : p = e.sub.headTreeId :=
        (entryStep_facts_update src oid e p n hst).2.2.2.1
      subst hp
      exact ⟨n, rfl, by simpa using hch⟩
  · rintro ⟨n, hst, hne⟩
    unfold entryChanges
    rw [hst]
    simpa using hne

theorem update_submodules_ok_unfold (src : RepoUrls) (oid : Oid)
    (repo : ClonedRepo) (acc : UpdateAcc)
    (hw : updateWalk src oid repo.submodules ⟨false, [], 0, []⟩ = .ok acc) :
    update_submodules src oid repo =
      if acc.count = 0 then .ok (none, acc.inited)
      else
        .ok (some (⟨acc.staged, acc.count, repo.headTarget⟩, acc.tree_changed),
          acc.inited) := by
  unfold update_submodules
  rw [hw]

theorem update_submodules_err_unfold (src : RepoUrls) (oid : Oid)
    (repo : ClonedRepo) (e0 : UpdErr)
    (hw : updateWalk src oid repo.submodules ⟨false, [], 0, []⟩ = .error e0) :
    update_submodules src oid repo = .error e0 := by
  unfold update_submodules
  rw [hw]

theorem updateWalk_ok_char (src : RepoUrls) (oid : Oid)
    (l : List SubmoduleEntry) (acc acc' : UpdateAcc)
    (h : updateWalk src oid l acc = .ok acc') :
    acc'.tree_changed = (acc.tree_changed || l.any (entryChanges src oid)) ∧
    acc'.staged =
      acc.staged ++ (l.filter (entryUpdates src oid)).map (fun e => e.path) ∧
    acc'.count = acc.count + (l.filter (entryUpdates src oid)).length ∧
    acc'.inited = acc.inited ++ initedOf src l := by
  induction l generalizing acc with
  | nil =>
    rw [updateWalk] at h
    obtain rfl := (Except.ok.inj h)
    simp [initedOf]
  | cons e rest ih =>
    rw [updateWalk] at h
    by_cases hm : matchUrl src e.url = false
    · rw [if_pos hm] at h
      have hstep := entryStep_noMatch src oid e hm
      obtain ⟨h1, h2, h3, h4⟩ := ih acc h
      refine ⟨?_, ?_, ?_, ?_⟩
      · rw [h1, List.any_cons]
        have : entryChanges src oid e = false := by unfold entryChanges; rw [hstep]
        rw [this, Bool.false_or]
      · rw [h2, List.filter_cons_of_neg]
        unfold entryUpdates
        rw [hstep]
        simp
      · rw [h3, List.filter_cons_of_neg]
        unfold entryUpdates
        rw [hstep]
        simp
      · rw [h4]
        unfold initedOf
        rw [List.filter_cons_of_neg (by simp [hm])]
    · rw [if_neg hm] at h
      have hm' := matchUrl_true_of_not_false src e.url hm
      by_cases hi : e.sub.initOk = false
      · rw [if_pos hi] at h
        cases h
      · rw [if_neg hi] at h
        have hi' : e.sub.initOk = true := by
          cases hq : e.sub.initOk
          · exact absurd hq hi
          · rfl
        by_cases hh : e.sub.headOid = oid
        · rw [if_pos hh] at h
          have hstep : entryStep src oid e = .skipUpToDate := by
            unfold entryStep
            rw [if_neg hm, if_neg hi, if_pos hh]
          obtain ⟨h1, h2, h3, h4⟩ := ih _ h
          refine ⟨?_, ?_, ?_, ?_⟩
          · rw [h1, List.any_cons]
            have : entryChanges src oid e = false := by
              unfold entryChanges
              rw [hstep]
            rw [this, Bool.false_or]
          · rw [h2, List.filter_cons_of_neg]
            unfold entryUpdates
            rw [hstep]
            simp
          · rw [h3, List.filter_cons_of_neg]
            unfold entryUpdates
            rw [hstep]
            simp
          · rw [h4]
            unfold initedOf
            rw [List.filter_cons_of_pos (by simp [hm'])]
            simp [List.append_assoc]
        · rw [if_neg hh] at h
          rcases hres : resolveTarget e.sub with err | newTree
          · rw [hres] at h
            cases h
          · rw [hres] at h
            have hstep : entryStep src oid e = .update e.sub.headTreeId newTree := by
              unfold entryStep
              rw [if_neg hm, if_neg hi, if_neg hh, hres]
            obtain ⟨h1, h2, h3, h4⟩ := ih _ h
            refine ⟨?_, ?_, ?_, ?_⟩
            · rw [h1, List.any_cons]
              have : entryChanges src oid e = (e.sub.headTreeId != newTree) := by
                unfold entryChanges
                rw [hstep]
              rw [this]
              simp [Bool.or_assoc, Bool.or_comm]
            · have hupd : entryUpdates src oid e = true := by
                unfold entryUpdates
                rw [hstep]
              rw [h2, List.filter_cons_of_pos hupd]
              simp [List.append_assoc]
            · have hupd : entryUpdates src oid e = true := by
                unfold entryUpdates
                rw [hstep]
              rw [h3, List.filter_cons_of_pos hupd]
              simp [Nat.add_comm, Nat.add_assoc, Nat.add_left_comm]
            · rw [h4]
              unfold initedOf
              rw [List.filter_cons_of_pos (by simp [hm'])]
              simp [List.append_assoc]

theorem updateWalk_ok_of_no_fail (src : RepoUrls) (oid : Oid)
    (l : List SubmoduleEntry) (acc : UpdateAcc)
    (h : ∀ e ∈ l, entryFails src oid e = false) :
    ∃ acc', updateWalk src oid l acc = .ok acc' := by
  induction l generalizing acc with
  | nil => exact ⟨acc, rfl⟩
  | cons e rest ih =>
    have he := h e (List.mem_cons_self e rest)
    have hrest : ∀ x ∈ rest, entryFails src oid x = false :=
      fun x hx => h x (List.mem_cons_of_mem e hx)
    rw [updateWalk]
    by_cases hm : matchUrl src e.url = false
    · rw [if_pos hm]
      exact ih acc hrest
    · rw [if_neg hm]
      by_cases hi : e.sub.initOk = false
      · exfalso
        unfold entryFails entryStep at he
        rw [if_neg hm, if_pos hi] at he
        simp at he
      · rw [if_neg hi]
        by_cases hh : e.sub.headOid = oid
        · rw [if_pos hh]
          exact ih _ hrest
        · rw [if_neg hh]
          rcases hres : resolveTarget e.sub with err | newTree
          · exfalso
            unfold entryFails entryStep at he
            rw [if_neg hm, if_neg hi, if_neg hh, hres] at he
            simp at he
          · exact ih _ hrest

theorem updateWalk_no_fail_of_ok (src : RepoUrls) (oid : Oid)
    (l : List SubmoduleEntry) (acc acc' : UpdateAcc)
    (h : updateWalk src oid l acc = .ok acc') :
    ∀ e ∈ l, entryFails src oid e = false := by
  induction l generalizing acc with
  | nil => intro e he; cases he
  | cons e rest ih =>
    rw [updateWalk] at h
    intro x hx
    by_cases hm : matchUrl src e.url = false
    · rw [if_pos hm] at h
      rcases List.mem_cons.mp hx with rfl | hx2
      · unfold entryFails
        rw [entryStep_noMatch src oid x hm]
      · exact ih acc h x hx2
    · rw [if_neg hm] at h
      by_cases hi : e.sub.initOk = false
      · rw [if_pos hi] at h
        cases h
      · rw [if_neg hi] at h
        by_cases hh : e.sub.headOid = oid
        · rw [if_pos hh] at h
          rcases List.mem_cons.mp hx with rfl | hx2
          · unfold entryFails entryStep
            rw [if_neg hm, if_neg hi, if_pos hh]
          · exact ih _ h x hx2
        · rw [if_neg hh] at h
          rcases hres : resolveTarget e.sub with err | newTree
          · rw [hres] at h
            cases h
          · rw [hres] at h
            rcases List.mem_cons.mp hx with rfl | hx2
            · unfold entryFails entryStep
              rw [if_neg hm, if_neg hi, if_neg hh, hres]
            · exact ih _ h x hx2

theorem update_none_of_upToDate (src : RepoUrls) (oid : Oid)
    (repo : ClonedRepo)
    (h : ∀ e ∈ repo.submodules, matchUrl src e.url = true →
      e.sub.initOk = true ∧ e.sub.headOid = oid) :
    ∃ ini, update_submodules src oid repo = .ok (none, ini) := by
  have hsteps : ∀ e ∈ repo.submodules, entryStep src oid e = .skipNoMatch ∨
      entryStep src oid e = .skipUpToDate := by
    intro e he
    by_cases hm : matchUrl src e.url = false
    · exact Or.inl (entryStep_noMatch src oid e hm)
    · obtain ⟨hi, hh⟩ := h e he (matchUrl_true_of_not_false src e.url hm)
      right
      unfold entryStep
      rw [if_neg hm, if_neg (by simp [hi]), if_pos hh]
  have hnofail : ∀ e ∈ repo.submodules, entryFails src oid e = false := by
    intro e he
    unfold entryFails
    rcases hsteps e he with h1 | h1 <;> rw [h1]
  obtain ⟨acc, hw⟩ :=
    updateWalk_ok_of_no_fail src oid repo.submodules ⟨false, [], 0, []⟩ hnofail
  obtain ⟨-, -, hcount, -⟩ := updateWalk_ok_char src oid _ _ _ hw
  have hfilter : repo.submodules.filter (entryUpdates src oid) = [] := by
    rw [List.filter_eq_nil_iff]
    intro e he
    unfold entryUpdates
    rcases hsteps e he with h1 | h1 <;> simp [h1]
  have hc0 : acc.count = 0 := by
    rw [hcount, hfilter]
    rfl
  refine ⟨acc.inited, ?_⟩
  rw [update_submodules_ok_unfold src oid repo acc hw, if_pos hc0]

/-- C3: when the builder produces a commit, the returned tree-changed
flag is true iff at least one updated entry resolves the target to a
tree id different from the pre-update HEAD tree id of that entry; in
particular a run where every updated entry keeps its tree id reports
no material change. -/
theorem materialChange_iff (src : RepoUrls) (oid : Oid) (repo : ClonedRepo)
    (c : CommitInfo) (mc : Bool) (ini : List String)
    (h : update_submodules src oid repo = .ok (some (c, mc), ini)) :
    mc = true ↔ ∃ e ∈ repo.submodules, ∃ n,
      entryStep src oid e = .update e.sub.headTreeId n ∧
        e.sub.headTreeId ≠ n := by
  rcases hw : updateWalk src oid repo.submodules ⟨false, [], 0, []⟩ with e0 | acc
  · rw [update_submodules_err_unfold src oid repo e0 hw] at h
    cases h
  · rw [update_submodules_ok_unfold src oid repo acc hw] at h
    by_cases hc : acc.count = 0
    · rw [if_pos hc] at h
      simp at h
    · rw [if_neg hc] at h
      simp only [Except.ok.injEq, Prod.mk.injEq, Option.some.injEq] at h
      obtain ⟨⟨-, hmc⟩, -⟩ := h
      obtain ⟨h1, -, -, -⟩ := updateWalk_ok_char src oid _ _ _ hw
      rw [← hmc, h1]
      simp only [Bool.false_or]
      rw [List.any_eq_true]
      constructor
      · rintro ⟨e, he, hch⟩
        exact ⟨e, he, (entryChanges_iff src oid e).mp hch⟩
      · rintro ⟨e, he, hex⟩
        exact ⟨e, he, (entryChanges_iff src oid e).mpr hex⟩

/-- Witness for C3: a run whose only updated entry moves to a commit
with the same tree yields a false flag (and the iff holds there). -/
theorem materialChange_iff_witness :
    update_submodules srcC 2 repoSameTree =
      .ok (some (⟨["lib"], 1, 5⟩, false), ["lib"]) ∧
    (false = true ↔ ∃ e ∈ repoSameTree.submodules, ∃ n,
      entryStep srcC 2 e = .update e.sub.headTreeId n ∧
        e.sub.headTreeId ≠ n) :=
  ⟨by decide,
    materialChange_iff srcC 2 repoSameTree ⟨["lib"], 1, 5⟩ false ["lib"]
      (by decide)⟩

/-- C4: idempotence of the builder.  An entry whose HEAD already equals
the target id is never counted as updated; when every matched entry
initializes and is already at the target, the builder returns nothing;
the staged paths and the count are exactly those of the updating
entries (so skipped entries contribute neither); and rerunning the
builder on the working copy produced by a successful run returns
nothing. -/
theorem update_submodules_idempotent (src : RepoUrls) (oid : Oid)
    (repo : ClonedRepo) :
    (∀ e : SubmoduleEntry, e.sub.headOid = oid →
      entryUpdates src oid e = false) ∧
    ((∀ e ∈ repo.submodules, matchUrl src e.url = true →
        e.sub.initOk = true ∧ e.sub.headOid = oid) →
      ∃ ini, update_submodules src oid repo = .ok (none, ini)) ∧
    (∀ res ini, update_submodules src oid repo = .ok (res, ini) →
      stagedOf res =
        (repo.submodules.filter (entryUpdates src oid)).map (fun e => e.path) ∧
      countOf res = (repo.submodules.filter (entryUpdates src oid)).length) ∧
    (∀ res, update_submodules src oid repo = .ok res →
      ∃ ini,
        update_submodules src oid (applyUpdate src oid repo) = .ok (none, ini)) := by
  refine ⟨?_, update_none_of_upToDate src oid repo, ?_, ?_⟩
  · intro e hh
    unfold entryUpdates entryStep
    by_cases hm : matchUrl src e.url = false
    · rw [if_pos hm]
    · rw [if_neg hm]
      by_cases hi : e.sub.initOk = false
      · rw [if_pos hi]
      · rw [if_neg hi, if_pos hh]
  · intro res ini h
    rcases hw : updateWalk src oid repo.submodules ⟨false, [], 0, []⟩ with e0 | acc
    · rw [update_submodules_err_unfold src oid repo e0 hw] at h
      cases h
    · rw [update_submodules_ok_unfold src oid repo acc hw] at h
      obtain ⟨-, hstaged, hcount, -⟩ := updateWalk_ok_char src oid _ _ _ hw
      by_cases hc : acc.count = 0
      · rw [if_pos hc] at h
        simp only [Except.ok.injEq, Prod.mk.injEq] at h
        obtain ⟨hres, -⟩ := h
        have hflen : (repo.submodules.filter (entryUpdates src oid)).length = 0 := by
          have := hcount
          rw [hc] at this
          simpa using this.symm
        have hfnil := List.length_eq_zero.mp hflen
        rw [← hres]
        rw [hfnil]
        exact ⟨rfl, rfl⟩
      · rw [if_neg hc] at h
        simp only [Except.ok.injEq, Prod.mk.injEq] at h
        obtain ⟨hres, -⟩ := h
        rw [← hres]
        unfold stagedOf countOf
        constructor
        · rw [hstaged]
          simp
        · rw [hcount]
          simp
  · intro res h
    have hw : ∃ acc, updateWalk src oid repo.submodules ⟨false, [], 0, []⟩ = .ok acc := by
      rcases hw2 : updateWalk src oid repo.submodules ⟨false, [], 0, []⟩ with e0 | acc
      · rw [update_submodules_err_unfold src oid repo e0 hw2] at h
        cases h
      · exact ⟨acc, rfl⟩
    obtain ⟨acc, hw⟩ := hw
    have hnofail := updateWalk_no_fail_of_ok src oid _ _ _ hw
    apply update_none_of_upToDate
    intro e2 he2 hm2
    obtain ⟨e, he, rfl⟩ := List.mem_map.mp he2
    have hef := hnofail e he
    unfold entryFails at hef
    unfold applyEntryUpdate at hm2 ⊢
    rcases hst : entryStep src oid e with _ | _ | err | ⟨p, n⟩
    · rw [hst] at hm2
      have hm2e : matchUrl src e.url = true := hm2
      rw [entryStep_noMatch_inv src oid e hst] at hm2e
      cases hm2e
    · obtain ⟨-, hi, hh⟩ := entryStep_facts_upToDate src oid e hst
      exact ⟨hi, hh⟩
    · rw [hst] at hef
      simp at hef
    · obtain ⟨-, hi, -, -, -⟩ := entryStep_facts_update src oid e p n hst
      exact ⟨hi, rfl⟩

/-- Witness for C4 on a working copy whose matched entry is already at
the target commit. -/
theorem update_submodules_idempotent_witness :
    (∃ ini, update_submodules srcC 2 repoUpToDate = .ok (none, ini)) ∧
    update_submodules srcC 2 repoUpToDate = .ok (none, ["lib"]) :=
  ⟨(update_submodules_idempotent srcC 2 repoUpToDate).2.1 (by decide),
    by decide⟩

theorem fetch_object_all_ok (l : List RemoteFetch) (i : Nat)
    (h : ∀ rm ∈ l, rm.fetchOk = true) : fetch_object l i = .ok () := by
  induction l generalizing i with
  | nil => rfl
  | cons rm rest ih =>
    rw [fetch_object, if_pos (h rm (List.mem_cons_self rm rest))]
    exact ih (i + 1) (fun x hx => h x (List.mem_cons_of_mem rm hx))

theorem fetch_object_first_fail (good : List RemoteFetch) (bad : RemoteFetch)
    (rest : List RemoteFetch) (i : Nat)
    (hg : ∀ rm ∈ good, rm.fetchOk = true) (hb : bad.fetchOk = false) :
    fetch_object (good ++ bad :: rest) i =
      .error (.fetchFailed (i + good.length)) := by
  induction good generalizing i with
  | nil =>
    rw [List.nil_append, fetch_object, if_neg (by rw [hb]; simp)]
    rfl
  | cons g gs ih =>
    rw [List.cons_append, fetch_object,
      if_pos (hg g (List.mem_cons_self g gs)),
      ih (i + 1) (fun x hx => hg x (List.mem_cons_of_mem g hx))]
    have : i + 1 + gs.length = i + (g :: gs).length := by
      rw [List.length_cons]
      omega
    rw [this]

/-- C7 counterexample: the target object is absent from the local store
of the matched entry, the FIRST remote fetch succeeds and delivers the
object, yet the builder fails with the fetch error of the SECOND remote:
fetching does not stop at the first success, and the failure is a git
error raised although the object is present after the first fetch, not
a not-found error for a still-absent object. -/
theorem fetch_does_not_stop_at_first_success :
    entryC7.sub.localResolve = none ∧
    entryC7.sub.remotes.head? = some ⟨true, true⟩ ∧
    matchUrl srcC entryC7.url = true ∧
    update_submodules srcC 2 repoC7 = .error (.fetchFailed 1) := by
  decide

/-- C7 (amended): when the target id is absent from the local store of
a matched, initialized, not up-to-date entry, the builder fetches from
every configured remote in declared order, raising a git error naming
the first remote whose fetch fails; only when every fetch succeeds does
it retry resolution once, succeeding when some successful fetch
delivered the object and raising not-found otherwise. -/
theorem fetch_every_remote_in_order (s : SubrepoState)
    (hl : s.localResolve = none) :
    (∀ good bad rest, s.remotes = good ++ bad :: rest →
      (∀ rm ∈ good, rm.fetchOk = true) → bad.fetchOk = false →
      resolveTarget s = .error (.fetchFailed good.length)) ∧
    ((∀ rm ∈ s.remotes, rm.fetchOk = true) →
      (s.remotes.any (fun rm => rm.fetchOk && rm.hasObj) = true →
        resolveTarget s = .ok s.fetchedTree) ∧
      (s.remotes.any (fun rm => rm.fetchOk && rm.hasObj) = false →
        resolveTarget s = .error .refNotFound)) ∧
    (∀ (src : RepoUrls) (oid : Oid) (e : SubmoduleEntry), e.sub = s →
      matchUrl src e.url = true → s.initOk = true → ¬ s.headOid = oid →
      entryStep src oid e =
        (match resolveTarget s with
          | .error err => .fail err
          | .ok n => .update s.headTreeId n)) := by
  refine ⟨?_, ?_, ?_⟩
  · intro good bad rest hrem hg hb
    unfold resolveTarget
    rw [hl, hrem, fetch_object_first_fail good bad rest 0 hg hb]
    simp
  · intro hall
    constructor
    · intro hobj
      unfold resolveTarget
      rw [hl, fetch_object_all_ok s.remotes 0 hall]
      rw [hobj]
      rfl
    · intro hobj
      unfold resolveTarget
      rw [hl, fetch_object_all_ok s.remotes 0 hall]
      rw [hobj]
      rfl
  · intro src oid e hes hm hi hh
    subst hes
    unfold entryStep
    rw [if_neg (by rw [hm]; simp), if_neg (by rw [hi]; simp), if_neg hh]

/-- Witness for the amended C7 at concrete submodule states. -/
theorem fetch_every_remote_in_order_witness :
    resolveTarget ⟨1, 10, none, [⟨true, false⟩, ⟨false, false⟩], 20, true⟩ =
      .error (.fetchFailed 1) ∧
    resolveTarget ⟨1, 10, none, [⟨true, true⟩], 20, true⟩ = .ok 20 :=
  ⟨(fetch_every_remote_in_order
      ⟨1, 10, none, [⟨true, false⟩, ⟨false, false⟩], 20, true⟩ rfl).1
      [⟨true, false⟩] ⟨false, false⟩ [] rfl (by decide) rfl,
    ((fetch_every_remote_in_order ⟨1, 10, none, [⟨true, true⟩], 20, true⟩
      rfl).2.1 (by decide)).1 (by decide)⟩

/-- C8 counterexample: the nested submodule A/B refers to the source
repository, yet the walk merely initializes it — no URL matching is
applied to nested entries, as A/C (whose URL does not refer to the
source) is initialized just the same — and never updates it: only the
top-level entry A is staged. -/
theorem nested_submodules_not_matched :
    matchUrl srcC uSrc = true ∧
    matchUrl srcC uOther = false ∧
    entryC8.nested.map SubTree.rootUrl = [uSrc, uOther] ∧
    initChildren entryC8.nested = ["A/B", "A/C"] ∧
    update_submodules srcC 2 repoC8 =
      .ok (some (⟨["A"], 1, 5⟩, true), ["A", "A/B", "A/C"]) := by
  decide

mutual

theorem mapUrl_init (f : Url → Url) (t : SubTree) :
    init_submodule (SubTree.mapUrl f t) = init_submodule t := by
  cases t with
  | node p u cs =>
    simp only [SubTree.mapUrl, init_submodule]
    rw [mapUrlList_init f cs]

theorem mapUrlList_init (f : Url → Url) (ts : List SubTree) :
    initChildren (SubTree.mapUrlList f ts) = initChildren ts := by
  cases ts with
  | nil => rfl
  | cons t ts2 =>
    simp only [SubTree.mapUrlList, initChildren]
    rw [mapUrl_init f t, mapUrlList_init f ts2]

end

/-- C8 (amended): after a matched top-level entry is initialized, the
walker recursively initializes all of its nested submodules regardless
of their remote URLs — the initialized paths are invariant under any
rewriting of the nested URLs — and nested submodules are never
updated: every staged path is the path of a top-level entry, and the
initialized paths are exactly those below the matched top-level
entries. -/
theorem init_recursion_unconditional (src : RepoUrls) (oid : Oid)
    (repo : ClonedRepo) :
    (∀ res ini, update_submodules src oid repo = .ok (res, ini) →
      (∀ pth ∈ stagedOf res, pth ∈ repo.submodules.map (fun e => e.path)) ∧
      ini = initedOf src repo.submodules) ∧
    (∀ (f : Url → Url) (t : SubTree),
      init_submodule (SubTree.mapUrl f t) = init_submodule t) := by
  refine ⟨?_, fun f t => mapUrl_init f t⟩
  intro res ini h
  rcases hw : updateWalk src oid repo.submodules ⟨false, [], 0, []⟩ with e0 | acc
  · rw [update_submodules_err_unfold src oid repo e0 hw] at h
    cases h
  · rw [update_submodules_ok_unfold src oid repo acc hw] at h
    obtain ⟨-, hstaged, -, hini⟩ := updateWalk_ok_char src oid _ _ _ hw
    have hsub : ∀ pth ∈ acc.staged, pth ∈ repo.submodules.map (fun e => e.path) := by
      intro pth hp
      rw [hstaged] at hp
      simp only [List.nil_append] at hp
      obtain ⟨e, he, rfl⟩ := List.mem_map.mp hp
      exact List.mem_map.mpr ⟨e, List.mem_of_mem_filter he, rfl⟩
    by_cases hc : acc.count = 0
    · rw [if_pos hc] at h
      simp only [Except.ok.injEq, Prod.mk.injEq] at h
      obtain ⟨hres, hini2⟩ := h
      constructor
      · rw [← hres]
        intro pth hp
        cases hp
      · rw [← hini2, hini]
        rfl
    · rw [if_neg hc] at h
      simp only [Except.ok.injEq, Prod.mk.injEq] at h
      obtain ⟨hres, hini2⟩ := h
      constructor
      · rw [← hres]
        exact hsub
      · rw [← hini2, hini]
        rfl

/-- Witness for the amended C8 at the concrete working copy with nested
submodules. -/
theorem init_recursion_unconditional_witness :
    ((∀ pth ∈ stagedOf (some (⟨["A"], 1, 5⟩, true)),
        pth ∈ repoC8.submodules.map (fun e => e.path)) ∧
      ["A", "A/B", "A/C"] = initedOf srcC repoC8.submodules) ∧
    init_submodule (SubTree.mapUrl (fun _ => uOther) (SubTree.node "A/B" uSrc [])) =
      init_submodule (SubTree.node "A/B" uSrc []) :=
  ⟨(init_recursion_unconditional srcC 2 repoC8).1 (some (⟨["A"], 1, 5⟩, true))
      ["A", "A/B", "A/C"] (by decide),
    (init_recursion_unconditional srcC 2 repoC8).2 (fun _ => uOther)
      (SubTree.node "A/B" uSrc [])⟩

theorem processTarget_optional_missing (gh : GHLookups)
    (parseRepo : String → Option String)
    (t repoStr branch0 repoKey : String)
    (hsplit : splitColon t = some (repoStr, branch0))
    (hparse : parseRepo repoStr = some repoKey)
    (hne : (branch0 != "") = true)
    (hq : strEndsWithChar branch0 qmark = true)
    (hstar : strEndsWithChar branch0 star = false)
    (hmiss :
      gh.lookupRepo repoKey = .error .notFound ∨
      ∃ robj, gh.lookupRepo repoKey = .ok robj ∧
        gh.branchOf robj
          (if rstripChar branch0 qmark = "" then gh.defaultBranch robj
           else rstripChar branch0 qmark) = .error .notFound) :
    ∀ m, processTarget gh parseRepo t m = .ok m := by
  intro m
  rcases hmiss with hrep | ⟨robj, hrep, hbr⟩
  · simp [processTarget, acquire_valid_branches_for_repos, hsplit, hparse,
      hne, hq, hstar, hrep]
  · simp [processTarget, acquire_valid_branches_for_repos, hsplit, hparse,
      hne, hq, hstar, hrep, hbr]

theorem validate_go_transparent (gh : GHLookups)
    (parseRepo : String → Option String) (pre post : List String)
    (t : String)
    (hstep : ∀ m, processTarget gh parseRepo t m = .ok m) :
    ∀ m, validate_go gh parseRepo (pre ++ t :: post) m =
      validate_go gh parseRepo (pre ++ post) m := by
  induction pre with
  | nil =>
    intro m
    rw [List.nil_append, List.nil_append, validate_go, hstep m]
  | cons x pre2 ih =>
    intro m
    rw [List.cons_append, List.cons_append, validate_go, validate_go]
    rcases hx : processTarget gh parseRepo x m with e | m2
    · rfl
    · exact ih m2

/-- C9: a target specifier whose branch token carries the optional
marker `?` and whose branch (or repository) lookup fails with not-found
is silently dropped: the specifier itself raises no error and adds
nothing to the mapping, and validating the whole list behaves exactly
as if the specifier were absent, so the remaining targets are processed
and the resolved mapping lacks the optional target. -/
theorem optional_missing_branch_dropped (gh : GHLookups)
    (parseRepo : String → Option String) (pre post : List String)
    (t repoStr branch0 repoKey : String)
    (hsplit : splitColon t = some (repoStr, branch0))
    (hparse : parseRepo repoStr = some repoKey)
    (hne : (branch0 != "") = true)
    (hq : strEndsWithChar branch0 qmark = true)
    (hstar : strEndsWithChar branch0 star = false)
    (hmiss :
      gh.lookupRepo repoKey = .error .notFound ∨
      ∃ robj, gh.lookupRepo repoKey = .ok robj ∧
        gh.branchOf robj
          (if rstripChar branch0 qmark = "" then gh.defaultBranch robj
           else rstripChar branch0 qmark) = .error .notFound) :
    (∀ m, processTarget gh parseRepo t m = .ok m) ∧
    validate_and_acquire_branches gh parseRepo (pre ++ t :: post) =
      validate_and_acquire_branches gh parseRepo (pre ++ post) := by
  have hstep := processTarget_optional_missing gh parseRepo t repoStr branch0
    repoKey hsplit hparse hne hq hstar hmiss
  exact ⟨hstep,
    validate_go_transparent gh parseRepo pre post t hstep []⟩

/-- Witness for C9: the optional target `org/repo:staging?` with branch
`staging` absent is dropped and the run completes with an empty
mapping. -/
theorem optional_missing_branch_dropped_witness :
    (processTarget ghW (fun s => some s) "org/repo:staging?" [] = .ok [] ∧
      validate_and_acquire_branches ghW (fun s => some s)
          ([] ++ "org/repo:staging?" :: ["x:y"]) =
        validate_and_acquire_branches ghW (fun s => some s) ([] ++ ["x:y"])) ∧
    validate_and_acquire_branches ghW (fun s => some s)
      ["org/repo:staging?"] = .ok [] :=
  ⟨(fun h => ⟨h.1 [], h.2⟩)
      (optional_missing_branch_dropped ghW (fun s => some s) [] ["x:y"]
        "org/repo:staging?" "org/repo" "staging?" "org/repo"
        (by decide) rfl (by decide) (by decide) (by decide)
        (Or.inr ⟨⟨"org/repo"⟩, by decide, rfl⟩)),
    by decide⟩

end Sur
